import Mathlib

/-!
Shallow embedding of `src/spf2acl/spf.py` (python-spf2acl).

Python `str` values are modelled as `List Char`; Python `int` as `Int`
(or `Nat` where the source only ever holds naturals); operations that can
raise a Python exception return `Except Err _`.  Each definition mirrors
the correspondingly named class or method of the source file; comments
quote the source line being embedded where the translation is not obvious.
-/

/-- Characters of a string literal; Python `str` values are `List Char` here. -/
def chars (s : String) : List Char := s.data

/-- Error kinds.  `valueError`, `typeError` and `indexError` model the Python
exceptions the source can actually raise (`ValueError` from enum coercion and
`str.index`, `TypeError` from `re.split` on `None`, `IndexError` from list
indexing).  `unsupportedMacro`, `invalidMacro` and `lengthOverflow` are the
error kinds named by the specification; they are present so that claims about
them can be stated, and no definition in this file ever produces them. -/
inductive Err
  | valueError
  | typeError
  | indexError
  | unsupportedMacro
  | invalidMacro
  | lengthOverflow
deriving DecidableEq

deriving instance DecidableEq for Except

/-- Splitting a Python string at every occurrence of any character of
`delims`, keeping empty parts — the behaviour of both `str.split(c)` for a
one-character separator and of
`re.split("|".join(map(re.escape, delims)), s)` for a non-empty `delims`
(each escaped single-character alternative matches exactly that literal
character, so the alternation matches exactly the characters of `delims`). -/
def pySplitOn (delims : List Char) : List Char → List (List Char)
  | [] => [[]]
  | c :: rest =>
    match pySplitOn delims rest with
    | [] => [[]]      -- unreachable: the split of a string is never empty
    | h :: t => if c ∈ delims then [] :: h :: t else (c :: h) :: t

/-- Fuel-indexed worker for `pyReplace`; fuel `s.length` always suffices
because every step consumes at least one character of `s`. -/
def pyReplaceN (old new : List Char) : Nat → List Char → List Char
  | 0, s => s
  | _ + 1, [] => []
  | fuel + 1, c :: rest =>
    if old ≠ [] ∧ old.isPrefixOf (c :: rest) then
      new ++ pyReplaceN old new fuel ((c :: rest).drop old.length)
    else
      c :: pyReplaceN old new fuel rest

/-- Python `s.replace(old, new)`: left-to-right, non-overlapping replacement
of every occurrence.  (The source never calls `replace` with an empty `old`,
so that Python corner case is not modelled.) -/
def pyReplace (old new s : List Char) : List Char :=
  pyReplaceN old new s.length s

/-- Python list slice `xs[i:]` for an arbitrary (possibly negative) `i`. -/
def pySliceFrom (i : Int) (xs : List α) : List α :=
  if i < 0 then xs.drop (max ((xs.length : Int) + i) 0).toNat
  else xs.drop (min i (xs.length : Int)).toNat

/-- Python `s.index(ch)`: index of the first occurrence of `ch`, raising
`ValueError` when `ch` does not occur. -/
def pyIndex (ch : Char) : List Char → Except Err Nat
  | [] => .error .valueError
  | c :: rest => if c = ch then .ok 0 else (pyIndex ch rest).map (· + 1)

/-- Everything after the first occurrence of `c` (used only to state claims
about "the portion after the separator"). -/
def afterFirst (c : Char) : List Char → List Char
  | [] => []
  | x :: xs => if x = c then xs else afterFirst c xs

/-- Joining a list of strings with a separator, written the way the claims
describe it (to be compared with `List.intercalate`, which embeds
`sep.join(...)`). -/
def joinWith (sep : List Char) : List (List Char) → List Char
  | [] => []
  | [x] => x
  | x :: y :: rest => x ++ sep ++ joinWith sep (y :: rest)

/-- `"%d" % n` for a Python integer. -/
def intDec (n : Int) : List Char :=
  if n < 0 then '-' :: Nat.toDigits 10 (-n).toNat else Nat.toDigits 10 n.toNat

/-- `Macro.Type` — the eight macro letters. -/
inductive MacroType
  | SENDER
  | SENDER_LOCAL
  | SENDER_DOMAIN
  | DOMAIN
  | IP
  | IP_DOMAIN
  | IP_VERSION
  | HELO
deriving DecidableEq

/-- The one-character enum value of each macro type. -/
def MacroType.value : MacroType → List Char
  | .SENDER => ['s']
  | .SENDER_LOCAL => ['l']
  | .SENDER_DOMAIN => ['o']
  | .DOMAIN => ['d']
  | .IP => ['i']
  | .IP_DOMAIN => ['p']
  | .IP_VERSION => ['v']
  | .HELO => ['h']

/-- The enum coercion `Macro.Type(_type)`: `some` for a known one-character
token, `none` (Python: `ValueError`) otherwise. -/
def MacroType.ofValue : List Char → Option MacroType
  | ['s'] => some .SENDER
  | ['l'] => some .SENDER_LOCAL
  | ['o'] => some .SENDER_DOMAIN
  | ['d'] => some .DOMAIN
  | ['i'] => some .IP
  | ['p'] => some .IP_DOMAIN
  | ['v'] => some .IP_VERSION
  | ['h'] => some .HELO
  | _ => none

/-- A `Macro` value as stored by `Macro.__init__`. -/
structure Macro where
  type : MacroType
  length : Option Int
  reverse : Bool
  delimiter : List Char
deriving DecidableEq

/-- `Macro.__init__(_type, length=None, reverse=False, delimiter=".")`:
the type token is coerced through the enum (`ValueError` for an unknown
token) and the delimiter is normalised by `delimiter or "."` (an empty —
falsy — delimiter becomes `"."`).  No validation of `length` happens. -/
def Macro.make (tok : List Char) (length : Option Int) (reverse : Bool)
    (delimiter : List Char) : Except Err Macro :=
  match MacroType.ofValue tok with
  | none => .error .valueError
  | some t => .ok ⟨t, length, reverse, if delimiter = [] then ['.'] else delimiter⟩

/-- `Macro.__str__`: the `%{...}` literal form — type letter, then the digits
of `length` if truthy, then `r` if `reverse`, then the delimiter if it differs
from `"."`, wrapped in `%{` ... `}`. -/
def Macro.str (m : Macro) : List Char :=
  let result := MacroType.value m.type
  let result := result ++ (match m.length with
    | some n => if n = 0 then [] else intDec n   -- `if self.length:` truthiness
    | none => [])
  let result := result ++ (if m.reverse then ['r'] else [])
  let result := result ++ (if m.delimiter ≠ ['.'] then m.delimiter else [])
  '%' :: '\x7b' :: (result ++ ['\x7d'])

/-- A `netaddr.IPAddress`, version 4 or 6, by numeric value. -/
inductive IPAddress
  | v4 (value : Nat)
  | v6 (value : Nat)
deriving DecidableEq

def IPAddress.version : IPAddress → Nat
  | .v4 _ => 4
  | .v6 _ => 6

/-- `netaddr.IPAddress("127.0.0.1")`, the default `ip` of `Query.__init__`. -/
def loopbackIP : IPAddress := IPAddress.v4 2130706433

/-- Dotted-decimal text of an IPv4 address (`str(ip)` for a v4 address). -/
def ipv4Text (v : Nat) : List Char :=
  Nat.toDigits 10 (v / 2 ^ 24 % 256) ++ '.' :: Nat.toDigits 10 (v / 2 ^ 16 % 256)
    ++ '.' :: Nat.toDigits 10 (v / 2 ^ 8 % 256) ++ '.' :: Nat.toDigits 10 (v % 256)

/-- The raw text the `i` macro resolves to:
for v6, `".".join(ip.format(netaddr.ipv6_verbose).replace(":", ""))` — the 32
lowercase hex nibbles of the fully expanded form, interposed with dots; for
v4, `str(ip)`. -/
def ipMacroText : IPAddress → List Char
  | .v4 v => ipv4Text v
  | .v6 v => List.intercalate ['.']
      ((List.range 32).map (fun i => [Nat.digitChar (v / 2 ^ (4 * (31 - i)) % 16)]))

/-- A `Query` as stored by `Query.__init__(sender, domain=None,
ip=IPAddress("127.0.0.1"))`.  Fields hold the constructor arguments. -/
structure Query where
  sender0 : List Char
  domain0 : Option (List Char)
  ip0 : IPAddress
deriving DecidableEq

/-- The `Query.sender` property: `postmaster@` is prepended when the stored
value contains no `@`. -/
def Query.sender (q : Query) : List Char :=
  if '@' ∈ q.sender0 then q.sender0 else chars "postmaster@" ++ q.sender0

/-- The `Query.domain` property: `self.__domain or self.sender.split("@")[1]`
— a falsy (unset or empty) stored domain falls back to element 1 of the
`@`-split of the normalised sender.  The `IndexError` of `[1]` cannot fire
because the normalised sender always contains `@`; `getD` keeps the
definition total. -/
def Query.domain (q : Query) : List Char :=
  match q.domain0 with
  | some d => if d = [] then (pySplitOn ['@'] (Query.sender q)).getD 1 [] else d
  | none => (pySplitOn ['@'] (Query.sender q)).getD 1 []

/-- The `Query.ip` property. -/
def Query.ip (q : Query) : IPAddress := q.ip0

/-- `Query` built with the default `ip` argument. -/
def Query.makeDefault (sender : List Char) (domain : Option (List Char)) : Query :=
  Query.mk sender domain loopbackIP

/-- Phase 1 of `Macro.expand` (the `if`/`elif` chain resolving the raw value
by macro type; the chain contains a duplicated dead `DOMAIN` branch in the
source).  For `IP_DOMAIN` and `HELO` no branch assigns `result`, so `result`
stays `None` and the subsequent `re.split(..., None)` raises `TypeError`. -/
def Macro.expandRaw (t : MacroType) (q : Query) : Except Err (List Char) :=
  match t with
  | .SENDER => .ok (Query.sender q)
  | .SENDER_LOCAL =>
    match (pySplitOn ['@'] (Query.sender q))[0]? with
    | some v => .ok v
    | none => .error .indexError
  | .SENDER_DOMAIN =>
    match (pySplitOn ['@'] (Query.sender q))[1]? with
    | some v => .ok v
    | none => .error .indexError
  | .DOMAIN => .ok (Query.domain q)
  | .IP => .ok (ipMacroText (Query.ip q))
  | .IP_VERSION =>
    .ok (if (Query.ip q).version = 6 then chars "ip6" else chars "in-addr")
  | .IP_DOMAIN => .error .typeError
  | .HELO => .error .typeError

/-- `if self.length: result = result[-self.length :]` — the truncation step
of `Macro.expand` with Python truthiness (`None` and `0` skip it) and Python
slice semantics (a negative stored length therefore drops leading labels). -/
def pyLengthTrunc (length : Option Int) (ls : List (List Char)) : List (List Char) :=
  match length with
  | some n => if n = 0 then ls else pySliceFrom (-n) ls
  | none => ls

/-- `Macro.expand(query)`: resolve the raw value, split it at every delimiter
character (`re.split` over the escaped single-character alternation), reverse
if `reverse`, truncate if `length` is truthy, and join with `"."`. -/
def Macro.expand (m : Macro) (q : Query) : Except Err (List Char) :=
  match Macro.expandRaw m.type q with
  | .error e => .error e
  | .ok raw =>
    .ok (List.intercalate ['.']
      (pyLengthTrunc m.length
        (if m.reverse then (pySplitOn m.delimiter raw).reverse
         else pySplitOn m.delimiter raw)))

/-- Step 1 of the specification's macro-engine algorithm: the raw value a
macro type resolves to, `none` when the query context supplies no data for
it. -/
def rawValueOf (t : MacroType) (q : Query) : Option (List Char) :=
  match t with
  | .SENDER => some (Query.sender q)
  | .SENDER_LOCAL => (pySplitOn ['@'] (Query.sender q))[0]?
  | .SENDER_DOMAIN => (pySplitOn ['@'] (Query.sender q))[1]?
  | .DOMAIN => some (Query.domain q)
  | .IP => some (ipMacroText (Query.ip q))
  | .IP_VERSION => some (if (Query.ip q).version = 6 then chars "ip6" else chars "in-addr")
  | .IP_DOMAIN => none
  | .HELO => none

/-- "Keep only the last `length` labels" as the claims state it (for a
positive `length`; `none` keeps everything). -/
def lastLabels (length : Option Int) (ls : List (List Char)) : List (List Char) :=
  match length with
  | some n => ls.drop (ls.length - n.toNat)
  | none => ls

/-- One fragment of a `Domain` sequence: a literal string or a macro. -/
inductive Fragment
  | lit (s : List Char)
  | mac (m : Macro)
deriving DecidableEq

/-- A `Domain` (domain-spec): the ordered fragment sequence. -/
abbrev Domain := List Fragment

/-- The escaping `Domain.__str__` applies to a literal fragment:
`i.replace("%", "%%").replace("%%20", "%-").replace(" ", "%_")`. -/
def escapeLiteral (s : List Char) : List Char :=
  pyReplace (chars " ") (chars "%_")
    (pyReplace (chars "%%20") (chars "%-")
      (pyReplace (chars "%") (chars "%%") s))

/-- `Domain.__str__`: literal fragments escaped, macro fragments in their
`%{...}` literal form, accumulated left to right. -/
def Domain.str (d : Domain) : List Char :=
  d.foldl
    (fun result i =>
      match i with
      | Fragment.lit s => result ++ escapeLiteral s
      | Fragment.mac m => result ++ Macro.str m)
    []

/-- Per-fragment rendering as the (amended) claim describes it: a literal is
rewritten by three sequential global replacements — every `%` doubled, then
every `%%20` to `%-`, then every space to `%_` — and a macro renders in its
literal form. -/
def fragRender : Fragment → List Char
  | Fragment.lit s =>
    pyReplace (chars " ") (chars "%_")
      (pyReplace (chars "%%20") (chars "%-")
        (pyReplace (chars "%") (chars "%%") s))
  | Fragment.mac m => Macro.str m

/-- The concatenation loop of `Domain.expand`: literal fragments as-is,
macro fragments expanded; a raised exception aborts the loop. -/
def Domain.expandConcat (d : Domain) (q : Query) : Except Err (List Char) :=
  d.foldl
    (fun acc i =>
      match acc with
      | .error e => .error e
      | .ok result =>
        match i with
        | Fragment.lit s => .ok (result ++ s)
        | Fragment.mac m =>
          match Macro.expand m q with
          | .ok s => .ok (result ++ s)
          | .error e => .error e)
    (Except.ok [])

/-- The while-loop of `Domain.expand`:
`while len(result) > 253: result = result[result.index(".") + 1 :]`,
fuel-indexed (fuel `s.length` always suffices because every iteration
removes at least one character; the `fuel = 0` case then only receives the
empty string, on which the loop body would not run anyway).
`result.index(".")` raises `ValueError` when no dot remains. -/
def stripLoopN : Nat → List Char → Except Err (List Char)
  | 0, s => .ok s
  | fuel + 1, s =>
    if 253 < s.length then
      match pyIndex '.' s with
      | .ok i => stripLoopN fuel (s.drop (i + 1))
      | .error e => .error e
    else .ok s

/-- `Domain.expand(query)`: concatenation, then the length-cap loop. -/
def Domain.expand (d : Domain) (q : Query) : Except Err (List Char) :=
  match Domain.expandConcat d q with
  | .ok result => stripLoopN result.length result
  | .error e => .error e

/-- The shared state of the `A` and `MX` mechanisms (`__Cidr`). -/
structure Cidr where
  domain : Option Domain
  ipv4_prefix_length : Nat
  ipv6_prefix_length : Nat
deriving DecidableEq

/-- `__Cidr._str`: optional `:`+domain (a `Domain` object is always truthy),
then `/`+v4 prefix when it differs from 32, then `//`+v6 prefix when it
differs from 128, accumulated in that order. -/
def Cidr.strTail (c : Cidr) : List Char :=
  let result : List Char := []
  let result := result ++ (match c.domain with
    | some d => ':' :: Domain.str d
    | none => [])
  let result := result ++
    (if c.ipv4_prefix_length ≠ 32 then '/' :: Nat.toDigits 10 c.ipv4_prefix_length else [])
  let result := result ++
    (if c.ipv6_prefix_length ≠ 128 then '/' :: '/' :: Nat.toDigits 10 c.ipv6_prefix_length else [])
  result

/-- Fuel-indexed count of low zero bits — the
`while i_val > 0: if i_val & 1 == 1: break; numbits += 1; i_val >>= 1`
loop of `netaddr.IPAddress.netmask_bits` (called only with `v ≠ 0`). -/
def lowZeroBits : Nat → Nat → Nat
  | 0, _ => 0
  | fuel + 1, v => if v % 2 = 1 then 0 else lowZeroBits fuel (v / 2) + 1

/-- `netaddr.IPAddress.is_netmask` for a 32-bit value:
`int_val = (value ^ max_int) + 1; return (int_val & (int_val - 1)) == 0`. -/
def is_netmask4 (v : Nat) : Bool :=
  ((v ^^^ (2 ^ 32 - 1)) + 1) &&& ((v ^^^ (2 ^ 32 - 1)) + 1 - 1) == 0

/-- `netaddr.IPAddress.netmask_bits` for a 32-bit value: the address width 32
unless the value is itself a valid netmask, in which case the number of its
leading one bits (0 for the all-zero address). -/
def netmaskBits4 (v : Nat) : Nat :=
  if !(is_netmask4 v) then 32
  else if v = 0 then 0
  else 32 - lowZeroBits 32 v

/-- The `IPNetwork` mechanism, IPv4 case (the v6 case differs only in width
128, the `ip6` tag, and netaddr's v6 address text, none of which the claims'
concrete inputs exercise).  Fields hold the parsed `netaddr.IPNetwork`:
address value and prefix length. -/
structure IPNetwork4 where
  value : Nat
  prefixlen : Nat
deriving DecidableEq

/-- The `IPNetwork.network` property returns the stored network's `.cidr`:
the address with all host bits below the prefix cleared.  `.address` is that
base address; `.prefix_length` the prefix. -/
def IPNetwork4.network_value (n : IPNetwork4) : Nat :=
  n.value / 2 ^ (32 - n.prefixlen) * 2 ^ (32 - n.prefixlen)

/-- `IPNetwork.__str__`: `"ip%d:%s%s"` with the `/prefix` suffix present
exactly when `self.prefix_length != self.address.netmask_bits()`. -/
def IPNetwork4.str (n : IPNetwork4) : List Char :=
  let addr := IPNetwork4.network_value n
  let suffix :=
    if n.prefixlen ≠ netmaskBits4 addr then '/' :: Nat.toDigits 10 n.prefixlen else []
  chars "ip4:" ++ ipv4Text addr ++ suffix

/-- The closed set of mechanisms. -/
inductive Mechanism
  | mAll
  | mInclude (domain : Domain)
  | mExists (domain : Domain)
  | mA (c : Cidr)
  | mMX (c : Cidr)
  | mIP (n : IPNetwork4)
deriving DecidableEq

/-- `__str__` of each mechanism. -/
def Mechanism.str : Mechanism → List Char
  | .mAll => chars "all"
  | .mInclude d => chars "include:" ++ Domain.str d
  | .mExists d => chars "exists:" ++ Domain.str d
  | .mA c => 'a' :: Cidr.strTail c
  | .mMX c => 'm' :: 'x' :: Cidr.strTail c
  | .mIP n => IPNetwork4.str n

/-- The qualifier enum with its one-character values. -/
inductive Qualifier
  | PASS
  | FAIL
  | NEUTRAL
  | SOFT_FAIL
deriving DecidableEq

def Qualifier.value : Qualifier → Char
  | .PASS => '+'
  | .FAIL => '-'
  | .NEUTRAL => '?'
  | .SOFT_FAIL => '~'

/-- A directive: mechanism plus qualifier (default `PASS`). -/
structure Directive where
  mechanism : Mechanism
  qualifier : Qualifier
deriving DecidableEq

/-- `Directive.__str__`: the qualifier character unless it is `PASS`
(rendered as the empty prefix), then the mechanism. -/
def Directive.str (d : Directive) : List Char :=
  (if d.qualifier ≠ Qualifier.PASS then [Qualifier.value d.qualifier] else [])
    ++ Mechanism.str d.mechanism

/-- The two modifiers. -/
inductive Modifier
  | Redirect (domain : Domain)
  | Exp (domain : Domain)
deriving DecidableEq

def Modifier.str : Modifier → List Char
  | .Redirect d => chars "redirect=" ++ Domain.str d
  | .Exp d => chars "exp=" ++ Domain.str d

/-- A term of a record: a directive or a modifier. -/
inductive Term
  | dir (d : Directive)
  | mod (m : Modifier)
deriving DecidableEq

def Term.str : Term → List Char
  | .dir d => Directive.str d
  | .mod m => Modifier.str m

/-- The top-level record (`SPF`): its ordered term list. -/
abbrev SPF := List Term

/-- `SPF.__str__`: `"v=%s" % self.version` (version is always `spf1`), then,
only when the term list is truthy (non-empty), a space and the
space-joined term renders. -/
def SPF.str (r : SPF) : List Char :=
  let result := chars "v=spf1"
  if r ≠ [] then result ++ ' ' :: List.intercalate [' '] (r.map Term.str) else result

/-- The query used by concrete witnesses: the specification's running
example sender, no explicit domain, the default loopback ip. -/
def qCtx : Query := Query.mk (chars "strong-bad@email.example.com") none loopbackIP

/-- A 300-character synthetic literal (30 ten-character labels) for the
length-cap witness. -/
def bigLit : List Char := (List.replicate 30 (chars "aaaaaaaab.")).flatten

/-- The last 250 characters of `bigLit` — what the cap loop leaves. -/
def bigRes : List Char := (List.replicate 25 (chars "aaaaaaaab.")).flatten

/-!  Helper lemmas. -/

theorem pySplitOn_ne_nil (ds : List Char) (t : List Char) : pySplitOn ds t ≠ [] := by
  cases t with
  | nil => simp [pySplitOn]
  | cons c rest =>
    simp only [pySplitOn]
    cases pySplitOn ds rest with
    | nil => simp
    | cons h tl => by_cases hc : c ∈ ds <;> simp [hc]

theorem pySplitOn_getD_zero (c : Char) (t : List Char) :
    (pySplitOn [c] t).getD 0 [] = t.takeWhile (fun x => x != c) := by
  induction t with
  | nil => rfl
  | cons x rest ih =>
    simp only [pySplitOn]
    cases hr : pySplitOn [c] rest with
    | nil => exact absurd hr (pySplitOn_ne_nil [c] rest)
    | cons h tl =>
      rw [hr] at ih
      by_cases hx : x = c
      · subst hx
        simp [List.takeWhile_cons]
      · simp only [List.getD_cons_zero] at ih
        simp [hx, List.takeWhile_cons, ih]

theorem pySplitOn_getD_one (c : Char) :
    ∀ t : List Char, c ∈ t →
      (pySplitOn [c] t).getD 1 [] = (afterFirst c t).takeWhile (fun x => x != c) := by
  intro t
  induction t with
  | nil => intro hmem; cases hmem
  | cons x rest ih =>
    intro hmem
    by_cases hx : x = c
    · subst hx
      have hA := pySplitOn_getD_zero x rest
      cases hr : pySplitOn [x] rest with
      | nil => exact absurd hr (pySplitOn_ne_nil [x] rest)
      | cons h tl =>
        rw [hr, List.getD_cons_zero] at hA
        simp [pySplitOn, hr, afterFirst, hA]
    · have hmem' : c ∈ rest := by
        cases hmem with
        | head => exact absurd rfl hx
        | tail _ hm => exact hm
      have hB := ih hmem'
      cases hr : pySplitOn [c] rest with
      | nil => exact absurd hr (pySplitOn_ne_nil [c] rest)
      | cons h tl =>
        rw [hr] at hB
        simp only [List.getD_cons_succ, List.getD_cons_zero] at hB
        simpa [pySplitOn, hr, afterFirst, hx] using hB

theorem sender_has_at (q : Query) : '@' ∈ Query.sender q := by
  unfold Query.sender
  split
  · assumption
  · exact List.mem_append.mpr (Or.inl (by decide))

theorem pySliceFrom_neg {α : Type} (n : Int) (hn : 0 < n) (xs : List α) :
    pySliceFrom (-n) xs = xs.drop (xs.length - n.toNat) := by
  unfold pySliceFrom
  rw [if_pos (by omega : -n < 0)]
  congr 1
  omega

theorem pyLengthTrunc_eq_lastLabels (len : Option Int)
    (h : len = none ∨ ∃ n, len = some n ∧ 0 < n) (ls : List (List Char)) :
    pyLengthTrunc len ls = lastLabels len ls := by
  rcases h with h | ⟨n, h, hn⟩ <;> subst h
  · rfl
  · simp only [pyLengthTrunc, lastLabels]
    rw [if_neg (by omega : ¬ n = 0), pySliceFrom_neg n hn]

theorem expandRaw_of_rawValueOf (t : MacroType) (q : Query) (raw : List Char)
    (h : rawValueOf t q = some raw) : Macro.expandRaw t q = .ok raw := by
  cases t <;> simp only [rawValueOf] at h <;> simp only [Macro.expandRaw]
  · rw [Option.some.injEq] at h; rw [h]
  · rw [h]
  · rw [h]
  · rw [Option.some.injEq] at h; rw [h]
  · rw [Option.some.injEq] at h; rw [h]
  · exact absurd h (by simp)
  · rw [Option.some.injEq] at h; rw [h]
  · exact absurd h (by simp)

theorem intercalate_eq_joinWith (sep : List Char) (l : List (List Char)) :
    List.intercalate sep l = joinWith sep l := by
  induction l with
  | nil => rfl
  | cons x xs ih =>
    cases xs with
    | nil => simp [List.intercalate, List.intersperse, joinWith]
    | cons y ys =>
      rw [joinWith, ← ih]
      simp [List.intercalate, List.intersperse, List.append_assoc]

theorem fragRender_lit (s : List Char) :
    fragRender (Fragment.lit s) = escapeLiteral s := rfl

theorem fragRender_mac (m : Macro) :
    fragRender (Fragment.mac m) = Macro.str m := rfl

theorem domain_str_foldl (d : Domain) (acc : List Char) :
    d.foldl (fun result i =>
      match i with
      | Fragment.lit s => result ++ escapeLiteral s
      | Fragment.mac m => result ++ Macro.str m) acc
      = acc ++ (d.map fragRender).flatten := by
  induction d generalizing acc with
  | nil => simp
  | cons x xs ih =>
    cases x <;> simp [ih, fragRender_lit, fragRender_mac, List.append_assoc]

theorem pyIndex_decomp (ch : Char) :
    ∀ (s : List Char) (i : Nat), pyIndex ch s = .ok i →
      s = s.take i ++ ch :: s.drop (i + 1) ∧ (s.take i).length = i := by
  intro s
  induction s with
  | nil => intro i h; exact absurd h (by simp [pyIndex])
  | cons c rest ih =>
    intro i h
    rw [pyIndex] at h
    by_cases hc : c = ch
    · rw [if_pos hc] at h
      have hi : i = 0 := by
        cases h
        rfl
      subst hi
      subst hc
      simp
    · rw [if_neg hc] at h
      cases hj : pyIndex ch rest with
      | error e => rw [hj] at h; exact absurd h (by simp [Except.map])
      | ok j =>
        rw [hj] at h
        simp only [Except.map, Except.ok.injEq] at h
        subst h
        obtain ⟨hp, hl⟩ := ih j hj
        constructor
        · rw [List.take_succ_cons, List.drop_succ_cons, List.cons_append]
          exact congrArg (c :: ·) hp
        · rw [List.take_succ_cons]
          simp [hl]

theorem stripLoopN_spec :
    ∀ (fuel : Nat) (s r : List Char), s.length ≤ fuel → stripLoopN fuel s = .ok r →
      r.length ≤ 253 ∧ (r = s ∨ ∃ p, s = p ++ '.' :: r) := by
  intro fuel
  induction fuel with
  | zero =>
    intro s r hfuel h
    have hs : s = [] := List.length_eq_zero.mp (Nat.le_zero.mp hfuel)
    subst hs
    rw [stripLoopN] at h
    have hr : r = [] := by cases h; rfl
    subst hr
    exact ⟨by simp, Or.inl rfl⟩
  | succ fuel ih =>
    intro s r hfuel h
    rw [stripLoopN] at h
    by_cases hlen : 253 < s.length
    · rw [if_pos hlen] at h
      cases hidx : pyIndex '.' s with
      | error e => rw [hidx] at h; cases h
      | ok i =>
        rw [hidx] at h
        obtain ⟨hp, hpl⟩ := pyIndex_decomp '.' s i hidx
        have hdroplen : (s.drop (i + 1)).length ≤ fuel := by
          have hleq := congrArg List.length hp
          simp only [List.length_append, List.length_cons, hpl] at hleq
          omega
        obtain ⟨h1, h2⟩ := ih (s.drop (i + 1)) r hdroplen h
        refine ⟨h1, Or.inr ?_⟩
        rcases h2 with h2 | ⟨p', hp'⟩
        · exact ⟨s.take i, by rw [← h2] at hp; exact hp⟩
        · refine ⟨s.take i ++ '.' :: p', ?_⟩
          conv_lhs => rw [hp]
          rw [hp']
          simp [List.append_assoc]
    · rw [if_neg hlen] at h
      have hr : r = s := by cases h; rfl
      subst hr
      exact ⟨by omega, Or.inl rfl⟩

/-!  Claim theorems. -/

/-- C1: for every macro (with a positive length when one is set, and the
non-empty delimiter the constructor guarantees) and every query for which the
raw value resolves, `Macro.expand` returns exactly: the raw value split at
every delimiter character, reversed when `reverse` is set, truncated to the
last `length` labels when `length` is set, joined with `"."`. -/
theorem macro_expand_pipeline (m : Macro) (q : Query) (raw : List Char)
    (hlen : m.length = none ∨ ∃ n, m.length = some n ∧ 0 < n)
    (_hdel : m.delimiter ≠ [])
    (hraw : rawValueOf m.type q = some raw) :
    Macro.expand m q = .ok (List.intercalate ['.']
      (lastLabels m.length
        (if m.reverse then (pySplitOn m.delimiter raw).reverse
         else pySplitOn m.delimiter raw))) := by
  rw [Macro.expand, expandRaw_of_rawValueOf m.type q raw hraw]
  exact congrArg Except.ok
    (congrArg (List.intercalate ['.']) (pyLengthTrunc_eq_lastLabels m.length hlen _))

/-- Witness for C1: the Domain macro with delimiter `.`, reverse, length 2 on
domain `email.example.com` expands to `example.email`. -/
theorem macro_expand_pipeline_witness :
    Macro.expand (Macro.mk MacroType.DOMAIN (some 2) true ['.']) qCtx
      = .ok (chars "example.email") := by
  have h := macro_expand_pipeline (Macro.mk MacroType.DOMAIN (some 2) true ['.']) qCtx
    (chars "email.example.com") (Or.inr ⟨2, rfl, by omega⟩) (by decide) (by decide)
  rw [h]
  decide

/-- C2: whenever `Domain.expand` returns a result, that result is the
fragment concatenation (literals as-is, macros expanded) with zero or more
whole leading labels stripped, has at most 253 characters, and is a
trailing-label suffix of the untruncated concatenation. -/
theorem domain_expand_length_cap (d : Domain) (q : Query) (r : List Char)
    (h : Domain.expand d q = .ok r) :
    ∃ u, Domain.expandConcat d q = .ok u ∧ r.length ≤ 253 ∧
      (r = u ∨ ∃ p, u = p ++ '.' :: r) := by
  rw [Domain.expand] at h
  cases hu : Domain.expandConcat d q with
  | error e => rw [hu] at h; cases h
  | ok u =>
    rw [hu] at h
    exact ⟨u, rfl, stripLoopN_spec u.length u r le_rfl h⟩

set_option maxRecDepth 100000 in
/-- Witness for C2: a 300-character synthetic expansion is stripped to its
last 250 characters, a trailing-label suffix of at most 253 octets. -/
theorem domain_expand_length_cap_witness :
    ∃ u, Domain.expandConcat [Fragment.lit bigLit] qCtx = .ok u ∧
      bigRes.length ≤ 253 ∧ (bigRes = u ∨ ∃ p, u = p ++ '.' :: bigRes) :=
  domain_expand_length_cap [Fragment.lit bigLit] qCtx bigRes (by decide)

/-- C3: the render of an `IPNetwork` compares the prefix against
`netmask_bits()` of the base address, not against the constant 32: for the
input `255.255.255.0/24` the base address is itself a valid netmask with 24
one bits, so the `/24` suffix the claim requires is omitted.  The claim's own
examples (`10.1.2.3/24`, `192.0.2.1/32`) do render as stated. -/
theorem ipnetwork_render_netmask_bug :
    IPNetwork4.str (IPNetwork4.mk 0xFFFFFF00 24) = chars "ip4:255.255.255.0" ∧
    chars "ip4:255.255.255.0" ≠ chars "ip4:255.255.255.0/24" ∧
    IPNetwork4.str (IPNetwork4.mk 0x0A010203 24) = chars "ip4:10.1.2.0/24" ∧
    IPNetwork4.str (IPNetwork4.mk 0xC0000201 32) = chars "ip4:192.0.2.1" := by
  refine ⟨by decide, by decide, by decide, by decide⟩

/-- C4: `SPF.__str__` is `v=spf1` followed, only for a non-empty term list,
by a single space and the terms' renders joined by single spaces in list
order; the empty record renders exactly `v=spf1`. -/
theorem spf_render (r : SPF) :
    SPF.str r = chars "v=spf1" ++
      (if r = [] then [] else ' ' :: joinWith [' '] (r.map Term.str)) ∧
    SPF.str [] = chars "v=spf1" := by
  constructor
  · by_cases h : r = []
    · subst h; rfl
    · simp [SPF.str, h, intercalate_eq_joinWith]
  · rfl

/-- C5: the `a` and `mx` mechanisms render as the leading token, an optional
`:`+domain, `/`+v4 prefix only when it differs from 32, and `//`+v6 prefix
only when it differs from 128, in that fixed order; in particular
`a/24//64` for prefixes 24 and 64 and plain `a` for the defaults. -/
theorem cidr_mechanism_render (c : Cidr) :
    Mechanism.str (Mechanism.mA c) = 'a' ::
      ((match c.domain with | some d => ':' :: Domain.str d | none => []) ++
       (if c.ipv4_prefix_length ≠ 32 then '/' :: Nat.toDigits 10 c.ipv4_prefix_length else []) ++
       (if c.ipv6_prefix_length ≠ 128 then '/' :: '/' :: Nat.toDigits 10 c.ipv6_prefix_length else [])) ∧
    Mechanism.str (Mechanism.mMX c) = 'm' :: 'x' ::
      ((match c.domain with | some d => ':' :: Domain.str d | none => []) ++
       (if c.ipv4_prefix_length ≠ 32 then '/' :: Nat.toDigits 10 c.ipv4_prefix_length else []) ++
       (if c.ipv6_prefix_length ≠ 128 then '/' :: '/' :: Nat.toDigits 10 c.ipv6_prefix_length else [])) ∧
    Mechanism.str (Mechanism.mA (Cidr.mk none 24 64)) = chars "a/24//64" ∧
    Mechanism.str (Mechanism.mA (Cidr.mk none 32 128)) = chars "a" := by
  refine ⟨?_, ?_, by decide, by decide⟩ <;>
    simp [Mechanism.str, Cidr.strTail, List.append_assoc]

/-- C6 counterexample: the literal fragment `%20` renders as `%-`, not as the
doubled-percent form `%%20` the claim's "no other rewriting" requires. -/
theorem domain_literal_escape_counterexample :
    Domain.str [Fragment.lit (chars "%20")] = chars "%-" ∧
    chars "%-" ≠ chars "%%20" := by decide

/-- C6 amended: each literal fragment is rewritten by three sequential global
replacements — every `%` doubled, then every `%%20` (an original `%20`)
replaced by `%-`, then every space by `%_` — and macro fragments render in
their `%{...}` literal form, the results concatenated in order. -/
theorem domain_literal_escape_amended (d : Domain) :
    Domain.str d = (d.map fragRender).flatten := by
  simpa using domain_str_foldl d []

/-- C7 counterexample: a Domain macro with the non-positive length 0 does not
fail — expanding it produces a result string. -/
theorem macro_zero_length_counterexample :
    Macro.expand (Macro.mk MacroType.DOMAIN (some 0) false ['.']) qCtx
      = .ok (chars "email.example.com") := by decide

/-- C7 amended: an unknown macro type token fails at construction with the
generic `ValueError` of the enum coercion (no `InvalidMacro` error exists in
the code); a non-positive length is accepted silently: length 0 behaves as if
no length were set, and whenever the raw value resolves a macro with a
non-positive length still produces a result string. -/
theorem macro_invalid_inputs_amended :
    (∀ (tok : List Char) (len : Option Int) (rev : Bool) (del : List Char),
      MacroType.ofValue tok = none → Macro.make tok len rev del = .error Err.valueError) ∧
    (∀ (m : Macro) (q : Query), m.length = some 0 →
      Macro.expand m q = Macro.expand (Macro.mk m.type none m.reverse m.delimiter) q) ∧
    (∀ (m : Macro) (q : Query) (n : Int) (raw : List Char),
      m.length = some n → n ≤ 0 → rawValueOf m.type q = some raw →
      ∃ s, Macro.expand m q = .ok s) := by
  refine ⟨?_, ?_, ?_⟩
  · intro tok len rev del h
    rw [Macro.make, h]
  · intro m q h
    obtain ⟨t, len, rev, del⟩ := m
    simp only at h
    subst h
    rw [Macro.expand, Macro.expand]
    cases Macro.expandRaw t q <;> simp [pyLengthTrunc]
  · intro m q n raw _ _ hraw
    rw [Macro.expand, expandRaw_of_rawValueOf m.type q raw hraw]
    exact ⟨_, rfl⟩

/-- Witness for the amended C7: the unknown token `x` fails with `ValueError`,
and a concrete zero-length macro expands exactly as its length-free twin. -/
theorem macro_invalid_inputs_amended_witness :
    Macro.make (chars "x") none false ['.'] = .error Err.valueError ∧
    Macro.expand (Macro.mk MacroType.DOMAIN (some 0) false ['.']) qCtx
      = Macro.expand (Macro.mk MacroType.DOMAIN none false ['.']) qCtx := by
  constructor
  · exact macro_invalid_inputs_amended.1 (chars "x") none false ['.'] (by decide)
  · exact macro_invalid_inputs_amended.2.1
      (Macro.mk MacroType.DOMAIN (some 0) false ['.']) qCtx rfl

/-- C8 counterexample: expanding an `IP_DOMAIN` macro fails with the Python
`TypeError` raised by `re.split` on `None`, which is not an
`UnsupportedMacro` error. -/
theorem unsupported_macro_counterexample :
    Macro.expand (Macro.mk MacroType.IP_DOMAIN none false ['.']) qCtx
      = .error Err.typeError ∧
    Err.typeError ≠ Err.unsupportedMacro := by decide

/-- C8 amended: for every `IpDomain` or `Helo` macro and every query context,
expansion fails (the raw value never resolves, and the split step raises
`TypeError`, not a dedicated `UnsupportedMacro` error), and the failure
propagates untouched through `Domain.expand`. -/
theorem unsupported_macro_amended (m : Macro) (q : Query)
    (ht : m.type = MacroType.IP_DOMAIN ∨ m.type = MacroType.HELO) :
    Macro.expand m q = .error Err.typeError ∧
    Domain.expand [Fragment.mac m] q = .error Err.typeError := by
  have hraw : Macro.expandRaw m.type q = .error Err.typeError := by
    rcases ht with h | h <;> rw [h] <;> rfl
  constructor
  · rw [Macro.expand, hraw]
  · simp [Domain.expand, Domain.expandConcat, Macro.expand, hraw]

/-- Witness for the amended C8: a concrete `Helo` macro fails with `TypeError`
both directly and through `Domain.expand`. -/
theorem unsupported_macro_amended_witness :
    Macro.expand (Macro.mk MacroType.HELO none false ['.']) qCtx
      = .error Err.typeError ∧
    Domain.expand [Fragment.mac (Macro.mk MacroType.HELO none false ['.'])] qCtx
      = .error Err.typeError :=
  unsupported_macro_amended (Macro.mk MacroType.HELO none false ['.']) qCtx (Or.inr rfl)

/-- C9 counterexample: for the sender `a@b@c` with no explicit domain, the
domain accessor returns `b` — the segment between the first and second `@` —
and not the portion after the `@`, which is `b@c`. -/
theorem query_domain_counterexample :
    Query.domain (Query.mk (chars "a@b@c") none loopbackIP) = chars "b" ∧
    afterFirst '@' (Query.sender (Query.mk (chars "a@b@c") none loopbackIP))
      = chars "b@c" ∧
    chars "b" ≠ chars "b@c" := by decide

/-- C9 amended: the sender accessor prepends `postmaster@` when the stored
sender has no `@`; with no explicit domain, the domain accessor returns the
segment of the normalised sender strictly between the first `@` and the next
`@` if any (the whole remainder when the sender has exactly one `@`); with no
explicit ip, the ip accessor returns the loopback address.  All accessors are
pure functions of the stored fields. -/
theorem query_accessors_amended :
    (∀ (s : List Char) (d : Option (List Char)) (i : IPAddress),
      ¬ '@' ∈ s → Query.sender (Query.mk s d i) = chars "postmaster@" ++ s) ∧
    (∀ (s : List Char) (i : IPAddress),
      Query.domain (Query.mk s none i) =
        (afterFirst '@' (Query.sender (Query.mk s none i))).takeWhile
          (fun x => x != '@')) ∧
    (∀ (s : List Char) (d : Option (List Char)),
      Query.ip (Query.makeDefault s d) = loopbackIP) := by
  refine ⟨?_, ?_, ?_⟩
  · intro s d i h
    simp [Query.sender, h]
  · intro s i
    have hat := sender_has_at (Query.mk s none i)
    have hsplit := pySplitOn_getD_one '@' (Query.sender (Query.mk s none i)) hat
    rw [Query.domain]
    exact hsplit
  · intro s d
    rfl

/-- Witness for the amended C9: concrete senders exercising the
`postmaster@` fallback and the between-the-ats domain fallback. -/
theorem query_accessors_amended_witness :
    Query.sender (Query.mk (chars "example.org") none loopbackIP)
      = chars "postmaster@" ++ chars "example.org" ∧
    Query.domain (Query.mk (chars "a@b@c") none loopbackIP) =
      (afterFirst '@' (Query.sender (Query.mk (chars "a@b@c") none loopbackIP))).takeWhile
        (fun x => x != '@') := by
  constructor
  · exact query_accessors_amended.1 (chars "example.org") none loopbackIP (by decide)
  · exact query_accessors_amended.2.1 (chars "a@b@c") loopbackIP

/-- C10: a macro constructed with an empty delimiter argument is the very
same value as one constructed with the default `"."` — so its stored
delimiter is `"."`, its `%{...}` render omits the delimiter characters, and
its expansion splits on `"."`, exactly as with the default. -/
theorem macro_empty_delimiter_default (tok : List Char) (len : Option Int) (rev : Bool) :
    Macro.make tok len rev [] = Macro.make tok len rev ['.'] ∧
    ∀ m, Macro.make tok len rev [] = .ok m → m.delimiter = ['.'] := by
  constructor
  · rw [Macro.make, Macro.make]
    cases MacroType.ofValue tok <;> simp
  · intro m h
    rw [Macro.make] at h
    cases hov : MacroType.ofValue tok <;> rw [hov] at h
    · cases h
    · cases h
      simp

/-- Witness for C10: the `d` macro built with an empty delimiter equals the
default-delimiter one and stores `"."`. -/
theorem macro_empty_delimiter_default_witness :
    Macro.make (chars "d") none false [] = Macro.make (chars "d") none false ['.'] ∧
    (Macro.mk MacroType.DOMAIN none false ['.']).delimiter = ['.'] := by
  refine ⟨(macro_empty_delimiter_default (chars "d") none false).1, ?_⟩
  exact (macro_empty_delimiter_default (chars "d") none false).2
    (Macro.mk MacroType.DOMAIN none false ['.']) (by decide)
